import Mathlib

/-!
Verification of the `evm-accounts` module (Acala): a two-way mapping between
Substrate accounts and EVM accounts, with a signature-based claim protocol and
an account-merge state machine.

Bytes are modelled as `Nat`, byte strings as `List Nat`.  The generic account
id type `T::AccountId` and the EVM address type `H160` are modelled as type
parameters `A` and `H` with decidable equality.  External collaborators
(ledger, account registry, secp256k1/keccak) are modelled from the spec where
noted; everything else is translated from `src/modules/evm-accounts/src/lib.rs`.
-/

/-- `to_ascii_hex` (lib.rs:276-284): converts binary data into ASCII-encoded
lowercase hex, two nibble characters per byte (`b'0' + n` for `n < 10`,
`b'a' - 10 + n` otherwise). -/
def to_ascii_hex : List Nat → List Nat
  | [] => []
  | b :: rest =>
      (if b / 16 < 10 then 48 + b / 16 else 87 + b / 16) ::
      (if b % 16 < 10 then 48 + b % 16 else 87 + b % 16) :: to_ascii_hex rest

/-- The fixed domain tag `b"acala evm:"` (lib.rs:193), as ASCII bytes. -/
def acalaTagBytes : List Nat := [97, 99, 97, 108, 97, 32, 101, 118, 109, 58]

/-- The Ethereum signed-message header `b"\x19Ethereum Signed Message:\n"`
(lib.rs:200), as ASCII bytes. -/
def ethHeaderBytes : List Nat :=
  [25, 69, 116, 104, 101, 114, 101, 117, 109, 32, 83, 105, 103, 110, 101, 100, 32,
   77, 101, 115, 115, 97, 103, 101, 58, 10]

/-- The digit loop of `ethereum_signable_message` (lib.rs:196-199):
`while l > 0 { rev.push(b'0' + (l % 10) as u8); l /= 10; }` producing the
decimal digits of `l` in reverse (least-significant first). -/
def revDigits (l : Nat) : List Nat :=
  if h : l = 0 then []
  else (48 + l % 10) :: revDigits (l / 10)
decreasing_by exact Nat.div_lt_self (Nat.pos_of_ne_zero h) (by norm_num)

/-- `ethereum_signable_message` (lib.rs:192-206): header, decimal length of
`prefix ++ what ++ extra` (most-significant digit first), the domain tag,
the payload and the extra bytes. -/
def ethereum_signable_message (what extra : List Nat) : List Nat :=
  ethHeaderBytes ++ (revDigits (acalaTagBytes.length + what.length + extra.length)).reverse
    ++ acalaTagBytes ++ what ++ extra

/-- Modelled from the spec: the external cryptographic collaborators used by
the Signature Engine (`sp_io::hashing::keccak_256`,
`sp_io::crypto::secp256k1_ecdsa_recover`, the `secp256k1` crate's
`sign`/`PublicKey::from_secret_key`/`serialize`), none of which are part of
this repository.  `keccak` is the 256-bit hash; `ecdsaRecover` takes a
65-byte signature and a 32-byte message hash and returns the 64-byte
uncompressed public key (x‖y, no prefix byte) or nothing; `pubkeySer` is the
65-byte serialized public key of a secret key (leading prefix byte followed
by x‖y); `signRS` produces the 64-byte (r,s) serialization and the recovery
id for a message hash under a secret key. -/
structure CryptoModel (K : Type) where
  keccak : List Nat → List Nat
  ecdsaRecover : List Nat → List Nat → Option (List Nat)
  pubkeySer : K → List Nat
  signRS : List Nat → K → List Nat × Nat

/-- `eth_recover` (lib.rs:210-216): keccak the signable message, recover the
64-byte public key from the signature, keccak it again, and keep the low-order
20 bytes as the EVM address. -/
def eth_recover {K : Type} (C : CryptoModel K) (s what extra : List Nat) : Option (List Nat) :=
  let msg := C.keccak (ethereum_signable_message what extra)
  (C.ecdsaRecover s msg).map (fun pk => (C.keccak pk).drop 12)

/-- `eth_address` (lib.rs:221-223): keccak of `serialize()[1..65]` of the
public key, low-order 20 bytes. -/
def eth_address {K : Type} (C : CryptoModel K) (secret : K) : List Nat :=
  (C.keccak ((C.pubkeySer secret).drop 1)).drop 12

/-- `eth_sign` (lib.rs:224-231): hex-ascii-encode the payload, build and
keccak the signable message, sign it, and assemble the 65-byte signature as
the 64 serialized bytes followed by the recovery id. -/
def eth_sign {K : Type} (C : CryptoModel K) (secret : K) (what extra : List Nat) : List Nat :=
  let msg := C.keccak (ethereum_signable_message (to_ascii_hex what) extra)
  let p := C.signRS msg secret
  p.1 ++ [p.2]

/-- `EvmAddressMapping::into_account_id` (lib.rs:242-254) at the byte level:
the address is the 20-byte `H160`, the result the 32-byte `AccountId32`.
A mapped account id is SCALE-encoded (`encode`) and copied into a 32-byte
buffer; `copy_from_slice` panics (modelled as `none`) unless the source has
exactly the target length.  An unmapped address is synthesized as
`b"evm:" ++ address ++ [0; 8]`. -/
def into_account_id {α : Type} (accounts : List Nat → Option α) (encode : α → List Nat)
    (address : List Nat) : Option (List Nat) :=
  match accounts address with
  | some acc => if (encode acc).length = 32 then some (encode acc) else none
  | none =>
      if address.length = 20 then some ([101, 118, 109, 58] ++ address ++ List.replicate 8 0)
      else none

/-- The error kinds of `claim_account` (lib.rs:85-99), plus `TransferFailed`
for a dispatch error propagated from the external ledger's `transfer`
(lib.rs:160). -/
inductive Err where
  | EthAddressHasMapped
  | BadSignature
  | InvalidSignature
  | NonZeroRefCount
  | StillHasActiveReserved
  | TransferFailed
deriving DecidableEq, Repr

/-- The state touched by the module: the two storage maps `Accounts` and
`EvmAddresses` (lib.rs:101-106), and — modelled from the spec — the external
ledger and account registry: free and reserved balances, the sequence counter
(nonce), account existence (`frame_system::is_explicit`), deletability
(`frame_system::allow_death`, true iff the ref count is zero), and the
external condition under which the ledger's `transfer` succeeds. -/
structure State (A H : Type) where
  accounts : H → Option A
  evmAddresses : A → Option H
  free : A → Nat
  reserved : A → Nat
  nonce : A → Nat
  isExplicit : A → Bool
  allowDeath : A → Bool
  transferAllowed : A → A → Nat → Bool

/-- The static configuration and collaborators of the module: the
`NewAccountDeposit` threshold, the default (`H160::zero()`) EVM address
returned by the `EvmAddresses` storage getter for a missing key, the
fallback derivation `T::AddressMapping` uses for an unmapped address
(`b"evm:" ++ address ++ [0; 8]` at the byte level), the SCALE encoding of an
account id (`who.using_encoded`), and the signature-recovery function
`eth_recover` specialised to a payload with empty extra bytes. -/
structure Ctx (A H Sig : Type) where
  deposit : Nat
  zeroH : H
  pad : H → A
  encodeAcc : A → List Nat
  recover : Sig → List Nat → Option H

/-- Point insertion into a keyed map. -/
def mapInsert {K V : Type} [DecidableEq K] (m : K → Option V) (k : K) (v : V) : K → Option V :=
  fun x => if x = k then some v else m x

/-- Point removal from a keyed map. -/
def mapRemove {K V : Type} [DecidableEq K] (m : K → Option V) (k : K) : K → Option V :=
  fun x => if x = k then none else m x

/-- Modelled from the spec: the ledger's `unreserve(acct, amount)` moves up to
`amount` (at most the reserved balance) from reserved into free. -/
def unreserveOp {A H : Type} [DecidableEq A] (s : State A H) (a : A) (amt : Nat) : State A H :=
  let actual := min amt (s.reserved a)
  { s with
    reserved := fun x => if x = a then s.reserved a - actual else s.reserved x
    free := fun x => if x = a then s.free x + actual else s.free x }

/-- Modelled from the spec: the ledger's
`transfer(from, to, amount, AllowDeath)` returns a `Result`; it may fail for
reasons external to this module (modelled by `transferAllowed`), a transfer
to self leaves balances unchanged, and otherwise the amount moves from
source to destination. -/
def transferOp {A H : Type} [DecidableEq A] (s : State A H) (src dst : A) (amt : Nat) :
    Except Err (State A H) :=
  if s.transferAllowed src dst amt = true then
    if src = dst then .ok s
    else .ok { s with
      free := fun x => if x = src then s.free x - amt else if x = dst then s.free x + amt else s.free x }
  else .error .TransferFailed

/-- `on_killed_account` (lib.rs:233-237): remove the forward entry at the
account's reverse-mapped address — the storage getter `Self::evm_addresses`
returns the default (zero) address when the account has no reverse entry —
then remove the reverse entry itself. -/
def on_killed_account {A H Sig : Type} [DecidableEq A] [DecidableEq H]
    (c : Ctx A H Sig) (s : State A H) (who : A) : State A H :=
  { s with
    accounts := mapRemove s.accounts ((s.evmAddresses who).getD c.zeroH)
    evmAddresses := mapRemove s.evmAddresses who }

/-- Modelled from the spec: `T::KillAccount::happened` asks the external
registry to destroy the account — its record (existence, burned balances,
sequence counter) is removed — which triggers this module's account-killed
hook `on_killed_account`. -/
def killAccount {A H Sig : Type} [DecidableEq A] [DecidableEq H]
    (c : Ctx A H Sig) (s : State A H) (acct : A) : State A H :=
  on_killed_account c
    { s with
      isExplicit := fun x => if x = acct then false else s.isExplicit x
      free := fun x => if x = acct then 0 else s.free x
      reserved := fun x => if x = acct then 0 else s.reserved x
      nonce := fun x => if x = acct then 0 else s.nonce x }
    acct

/-- The merge step of `claim_account` (lib.rs:133-166), entered when the
shadow account is explicit: ensure it may die (`NonZeroRefCount`), ensure
its reserved balance does not exceed the new-account deposit
(`StillHasActiveReserved`), unreserve a positive reserved balance, transfer
a positive free balance to the caller, record the shadow account's nonce and
kill it.  Returns the post-merge state and the recorded nonce. -/
def mergeStep {A H Sig : Type} [DecidableEq A] [DecidableEq H]
    (c : Ctx A H Sig) (s : State A H) (acct who : A) : Except Err (State A H × Nat) :=
  if s.allowDeath acct = true then
    let total_reserved := s.reserved acct
    if c.deposit ≥ total_reserved then
      let s1 := if 0 < total_reserved then unreserveOp s acct total_reserved else s
      let fb := s1.free acct
      match (if 0 < fb then transferOp s1 acct who fb else .ok s1) with
      | .error e => .error e
      | .ok s2 => .ok (killAccount c s2 acct, s2.nonce acct)
    else .error .StillHasActiveReserved
  else .error .NonZeroRefCount

/-- The tail of `claim_account` (lib.rs:167-183): raise the caller's nonce to
the recorded merge nonce if below it, then update the two maps — remove the
caller's previous forward entry if a reverse entry exists, insert the new
pair on both sides. -/
def claimFinish {A H Sig : Type} [DecidableEq A] [DecidableEq H]
    (c : Ctx A H Sig) (s : State A H) (who : A) (eth : H) (n : Nat) : State A H :=
  let s4 := if s.nonce who < n
    then { s with nonce := fun x => if x = who then n else s.nonce x } else s
  let a1 := match s4.evmAddresses who with
    | some h => mapRemove s4.accounts h
    | none => s4.accounts
  { s4 with
    accounts := mapInsert a1 eth who
    evmAddresses := mapInsert s4.evmAddresses who eth }

/-- The body of `claim_account` (lib.rs:119-185) inside
`with_transaction_result`: ensure the address is unmapped, recover the
signer address over the hex-ascii-encoded caller id with empty extra bytes,
ensure it matches, derive the shadow account through `T::AddressMapping`,
merge if it is explicit, then reconcile the nonce and update the maps. -/
def claim_account_inner {A H Sig : Type} [DecidableEq A] [DecidableEq H]
    (c : Ctx A H Sig) (s : State A H) (who : A) (eth : H) (sig : Sig) :
    Except Err (State A H) :=
  if (s.accounts eth).isSome then .error .EthAddressHasMapped
  else match c.recover sig (to_ascii_hex (c.encodeAcc who)) with
  | none => .error .BadSignature
  | some address =>
    if eth = address then
      let account_id := match s.accounts eth with
        | some a => a
        | none => c.pad eth
      if s.isExplicit account_id = true then
        match mergeStep c s account_id who with
        | .error e => .error e
        | .ok (s3, n) => .ok (claimFinish c s3 who eth n)
      else .ok (claimFinish c s who eth 0)
    else .error .InvalidSignature

/-- Modelled from the spec: the dispatchable `claim_account` runs its body
inside `with_transaction_result` (orml_utilities, outside this repository),
which commits every storage change on success and rolls all of them back on
error.  Returns the post-call state and the error, if any. -/
def claim_account {A H Sig : Type} [DecidableEq A] [DecidableEq H]
    (c : Ctx A H Sig) (s : State A H) (who : A) (eth : H) (sig : Sig) :
    State A H × Option Err :=
  match claim_account_inner c s who eth sig with
  | .ok t => (t, none)
  | .error e => (s, some e)

/-- States reachable from an empty mapping by successful `claim_account`
calls whose claimed address satisfies `P` and by account-killed hook
invocations. -/
inductive Reachable {A H Sig : Type} [DecidableEq A] [DecidableEq H]
    (c : Ctx A H Sig) (P : H → Prop) : State A H → Prop where
  | init (s : State A H) : (∀ h, s.accounts h = none) → (∀ a, s.evmAddresses a = none) →
      Reachable c P s
  | claim (s : State A H) (who : A) (eth : H) (sig : Sig) : Reachable c P s → P eth →
      (claim_account c s who eth sig).2 = none →
      Reachable c P (claim_account c s who eth sig).1
  | kill (s : State A H) (a : A) : Reachable c P s → Reachable c P (on_killed_account c s a)

/-- The bijectivity invariant together with the absence of a forward entry at
the default (zero) address: the forward and reverse maps hold exactly the
same pairs. -/
def Consistent {A H Sig : Type} (c : Ctx A H Sig) (s : State A H) : Prop :=
  (∀ h a, s.accounts h = some a ↔ s.evmAddresses a = some h) ∧ s.accounts c.zeroH = none

/-- A concrete crypto model satisfying the documented recovery contract
(`ecdsaRecover` of a signature produced by `signRS` over the same message
hash returns the signer's 64-byte public key), used to evaluate the
signature engine on concrete inputs.  Secret keys are naturals. -/
def toyCrypto : CryptoModel Nat where
  keccak := fun y => List.replicate 31 0 ++ [y.foldl (fun a b => (2 * a + b + 1) % 256) 0]
  ecdsaRecover := fun s m =>
    if s = s.headD 0 :: (m ++ (List.replicate 31 0 ++ [7])) then
      some (List.replicate 63 0 ++ [s.headD 0])
    else some (List.replicate 64 1)
  pubkeySer := fun k => 4 :: (List.replicate 63 0 ++ [k])
  signRS := fun m k => (k :: (m ++ List.replicate 31 0), 7)

/-- A baseline concrete state: empty maps, zero balances and nonces, no
explicit accounts, deletion and transfers allowed. -/
def baseState : State Nat Nat where
  accounts := fun _ => none
  evmAddresses := fun _ => none
  free := fun _ => 0
  reserved := fun _ => 0
  nonce := fun _ => 0
  isExplicit := fun _ => false
  allowDeath := fun _ => true
  transferAllowed := fun _ _ _ => true

/-- A concrete context whose signature recovery always yields the zero
address (address 0 plays the role of `H160::zero()`). -/
def cxCtx : Ctx Nat Nat Nat where
  deposit := 0
  zeroH := 0
  pad := fun h => h + 100
  encodeAcc := fun a => [a % 256]
  recover := fun _ _ => some 0

/-- Concrete initial state for the bijectivity counterexample: empty maps,
account 11 exists (so the registry may later kill it). -/
def cxInit : State Nat Nat :=
  { baseState with isExplicit := fun a => a == 11 }

/-- State after account 10 successfully claims the zero address. -/
def cxMid : State Nat Nat := (claim_account cxCtx cxInit 10 0 0).1

/-- State after the account-killed hook then runs for account 11, which has
no reverse entry. -/
def cxBad : State Nat Nat := on_killed_account cxCtx cxMid 11

/-- A concrete context for the merge scenarios: deposit threshold 5,
recovery always yields address 2, whose shadow account is 102. -/
def mgCtx : Ctx Nat Nat Nat where
  deposit := 5
  zeroH := 0
  pad := fun h => h + 100
  encodeAcc := fun a => [a % 256]
  recover := fun _ _ => some 2

/-- Concrete state for the merge counterexample: shadow account 102 is
explicit with free balance 1 and reserved balance 1 (within the threshold);
the caller 1 has free balance 0. -/
def mgSt : State Nat Nat :=
  { baseState with
    free := fun a => if a = 102 then 1 else 0
    reserved := fun a => if a = 102 then 1 else 0
    isExplicit := fun a => a == 102 }

/-- Concrete state in which the shadow account 102 is explicit with reserved
balance 7, strictly above the deposit threshold 5 of `mgCtx`. -/
def rsSt : State Nat Nat :=
  { baseState with
    reserved := fun a => if a = 102 then 7 else 0
    isExplicit := fun a => a == 102 }

/-- Concrete state where caller 1 is already mapped to address 9. -/
def rcSt : State Nat Nat :=
  { baseState with
    accounts := fun h => if h = 9 then some 1 else none
    evmAddresses := fun a => if a = 1 then some 9 else none }

/-- A concrete context whose signature recovery always fails. -/
def badSigCtx : Ctx Nat Nat Nat where
  deposit := 0
  zeroH := 0
  pad := fun h => h + 100
  encodeAcc := fun a => [a % 256]
  recover := fun _ _ => none

/-- Concrete state for the account-killed hook counterexample: the zero
address has a forward entry for account 5; no reverse entries exist. -/
def zeroSt : State Nat Nat :=
  { baseState with accounts := fun h => if h = 0 then some 5 else none }

/-- A concrete forward map at the byte level: the all-ones 20-byte address
maps to account 3. -/
def bytesAccounts : List Nat → Option Nat :=
  fun a => if a = List.replicate 20 1 then some 3 else none

/-- A concrete 32-byte account-id encoding. -/
def bytesEncode : Nat → List Nat := fun k => List.replicate 32 k

section Helpers

variable {A H Sig : Type} [DecidableEq A] [DecidableEq H]

lemma claimFinish_accounts (c : Ctx A H Sig) (t : State A H) (who : A) (eth : H) (n : Nat) :
    (claimFinish c t who eth n).accounts =
      mapInsert (match t.evmAddresses who with
        | some h0 => mapRemove t.accounts h0
        | none => t.accounts) eth who := by
  unfold claimFinish
  split <;> rfl

lemma claimFinish_evm (c : Ctx A H Sig) (t : State A H) (who : A) (eth : H) (n : Nat) :
    (claimFinish c t who eth n).evmAddresses = mapInsert t.evmAddresses who eth := by
  unfold claimFinish
  split <;> rfl

lemma claimFinish_free (c : Ctx A H Sig) (t : State A H) (who : A) (eth : H) (n : Nat) :
    (claimFinish c t who eth n).free = t.free := by
  unfold claimFinish
  split <;> rfl

lemma claimFinish_isExplicit (c : Ctx A H Sig) (t : State A H) (who : A) (eth : H) (n : Nat) :
    (claimFinish c t who eth n).isExplicit = t.isExplicit := by
  unfold claimFinish
  split <;> rfl

lemma claimFinish_nonce_who (c : Ctx A H Sig) (t : State A H) (who : A) (eth : H) (n : Nat) :
    (claimFinish c t who eth n).nonce who = max (t.nonce who) n := by
  unfold claimFinish
  split
  next hlt => simp [Nat.max_eq_right (Nat.le_of_lt hlt)]
  next hlt => simp [Nat.max_eq_left (Nat.le_of_not_lt hlt)]

lemma transferOp_ok_frame {s t : State A H} {a b : A} {amt : Nat}
    (h : transferOp s a b amt = .ok t) :
    t.accounts = s.accounts ∧ t.evmAddresses = s.evmAddresses ∧ t.nonce = s.nonce ∧
      t.isExplicit = s.isExplicit ∧ t.reserved = s.reserved := by
  unfold transferOp at h
  split at h
  · split at h <;> (simp only [Except.ok.injEq] at h; subst h; exact ⟨rfl, rfl, rfl, rfl, rfl⟩)
  · simp at h

lemma transferOp_error_eq {s : State A H} {a b : A} {amt : Nat} {e : Err}
    (h : transferOp s a b amt = .error e) : e = .TransferFailed := by
  unfold transferOp at h
  split at h
  · split at h <;> simp at h
  · simp only [Except.error.injEq] at h
    exact h.symm

end Helpers

section MergeLemmas

variable {A H Sig : Type} [DecidableEq A] [DecidableEq H]

lemma mergeStep_ok_maps {c : Ctx A H Sig} {s t : State A H} {acct who : A} {n : Nat}
    (h : mergeStep c s acct who = .ok (t, n)) :
    t.accounts = mapRemove s.accounts ((s.evmAddresses acct).getD c.zeroH) ∧
    t.evmAddresses = mapRemove s.evmAddresses acct := by
  simp only [mergeStep] at h
  split at h
  · split at h
    · split at h
      · simp at h
      · next s2 heq =>
        simp only [Except.ok.injEq, Prod.mk.injEq] at h
        obtain ⟨ht, hn⟩ := h
        subst ht
        have hs2 : s2.accounts = s.accounts ∧ s2.evmAddresses = s.evmAddresses := by
          by_cases hfb : 0 < (if 0 < s.reserved acct then unreserveOp s acct (s.reserved acct) else s).free acct
          · rw [if_pos hfb] at heq
            obtain ⟨h1, h2, -, -, -⟩ := transferOp_ok_frame heq
            constructor
            · rw [h1]; split <;> rfl
            · rw [h2]; split <;> rfl
          · rw [if_neg hfb] at heq
            simp only [Except.ok.injEq] at heq
            subst heq
            constructor <;> (split <;> rfl)
        constructor
        · calc (killAccount c s2 acct).accounts
              = mapRemove s2.accounts ((s2.evmAddresses acct).getD c.zeroH) := rfl
            _ = mapRemove s.accounts ((s.evmAddresses acct).getD c.zeroH) := by
                rw [hs2.1, hs2.2]
        · calc (killAccount c s2 acct).evmAddresses
              = mapRemove s2.evmAddresses acct := rfl
            _ = mapRemove s.evmAddresses acct := by rw [hs2.2]
    · simp at h
  · simp at h

lemma transferOp_ok_free_dst {s t : State A H} {a b : A} {amt : Nat}
    (hne : a ≠ b) (h : transferOp s a b amt = .ok t) :
    t.free b = s.free b + amt := by
  unfold transferOp at h
  by_cases hta : s.transferAllowed a b amt = true
  · rw [if_pos hta, if_neg hne] at h
    simp only [Except.ok.injEq] at h
    subst h
    show (if b = a then _ else if b = b then _ else _) = _
    rw [if_neg (Ne.symm hne), if_pos rfl]
  · rw [if_neg hta] at h
    simp at h

lemma mergeStep_ok_effects {c : Ctx A H Sig} {s t : State A H} {acct who : A} {n : Nat}
    (hne : acct ≠ who) (h : mergeStep c s acct who = .ok (t, n)) :
    t.free who = s.free who + s.free acct + s.reserved acct ∧
    t.isExplicit acct = false ∧
    t.nonce who = s.nonce who ∧
    n = s.nonce acct := by
  simp only [mergeStep] at h
  split at h
  · split at h
    · split at h
      · simp at h
      · next s2 heq =>
        simp only [Except.ok.injEq, Prod.mk.injEq] at h
        obtain ⟨ht, hn⟩ := h
        subst ht
        have hs1free : (if 0 < s.reserved acct then unreserveOp s acct (s.reserved acct) else s).free acct
            = s.free acct + s.reserved acct := by
          split
          · simp [unreserveOp]
          · next hr => simp [Nat.eq_zero_of_not_pos (fun hp => hr hp)]
        have hs1freew : (if 0 < s.reserved acct then unreserveOp s acct (s.reserved acct) else s).free who
            = s.free who := by
          split
          · simp [unreserveOp, Ne.symm hne]
          · rfl
        have hs1nonce : (if 0 < s.reserved acct then unreserveOp s acct (s.reserved acct) else s).nonce
            = s.nonce := by
          split <;> rfl
        have hs2 : s2.free who = s.free who + s.free acct + s.reserved acct ∧ s2.nonce = s.nonce := by
          by_cases hfb : 0 < (if 0 < s.reserved acct then unreserveOp s acct (s.reserved acct) else s).free acct
          · rw [if_pos hfb] at heq
            have hfree := transferOp_ok_free_dst hne heq
            obtain ⟨-, -, hnon, -, -⟩ := transferOp_ok_frame heq
            refine ⟨?_, by rw [hnon, hs1nonce]⟩
            rw [hfree, hs1freew, hs1free]
            omega
          · rw [if_neg hfb] at heq
            simp only [Except.ok.injEq] at heq
            subst heq
            have hz : s.free acct + s.reserved acct = 0 := by
              rw [← hs1free]
              omega
            refine ⟨?_, hs1nonce⟩
            rw [hs1freew]
            omega
        refine ⟨?_, ?_, ?_, ?_⟩
        · show (if who = acct then 0 else s2.free who) = _
          rw [if_neg (Ne.symm hne), hs2.1]
        · show (if acct = acct then false else _) = false
          rw [if_pos rfl]
        · show (if who = acct then 0 else s2.nonce who) = _
          rw [if_neg (Ne.symm hne), hs2.2]
        · rw [← hn, hs2.2]
    · simp at h
  · simp at h

end MergeLemmas

section ClaimLemmas

variable {A H Sig : Type} [DecidableEq A] [DecidableEq H]

lemma inner_ok_decomp {c : Ctx A H Sig} {s s' : State A H} {who : A} {eth : H} {sig : Sig}
    (h : claim_account_inner c s who eth sig = .ok s') :
    s.accounts eth = none ∧
    ∃ t : State A H,
      ((t.accounts = s.accounts ∧ t.evmAddresses = s.evmAddresses) ∨
       (t.accounts = mapRemove s.accounts ((s.evmAddresses (c.pad eth)).getD c.zeroH) ∧
        t.evmAddresses = mapRemove s.evmAddresses (c.pad eth))) ∧
      s'.accounts = mapInsert (match t.evmAddresses who with
        | some h0 => mapRemove t.accounts h0
        | none => t.accounts) eth who ∧
      s'.evmAddresses = mapInsert t.evmAddresses who eth := by
  unfold claim_account_inner at h
  cases hAcc : s.accounts eth with
  | some a =>
    rw [hAcc] at h
    simp at h
  | none =>
    rw [hAcc] at h
    simp only [Option.isSome_none, Bool.false_eq_true, if_false] at h
    refine ⟨rfl, ?_⟩
    cases hrec : c.recover sig (to_ascii_hex (c.encodeAcc who)) with
    | none => rw [hrec] at h; simp at h
    | some addr =>
      simp only [hrec] at h
      by_cases heq : eth = addr
      · rw [if_pos heq] at h
        by_cases hexp : s.isExplicit (c.pad eth) = true
        · rw [if_pos hexp] at h
          cases hm : mergeStep c s (c.pad eth) who with
          | error e => rw [hm] at h; simp at h
          | ok p =>
            obtain ⟨t0, n0⟩ := p
            rw [hm] at h
            simp only [Except.ok.injEq] at h
            obtain ⟨hta, hte⟩ := mergeStep_ok_maps hm
            exact ⟨t0, .inr ⟨hta, hte⟩, by rw [← h, claimFinish_accounts],
              by rw [← h, claimFinish_evm]⟩
        · rw [if_neg hexp] at h
          simp only [Except.ok.injEq] at h
          exact ⟨s, .inl ⟨rfl, rfl⟩, by rw [← h, claimFinish_accounts],
            by rw [← h, claimFinish_evm]⟩
      · rw [if_neg heq] at h
        simp at h

end ClaimLemmas

section ConsistencyLemmas

variable {A H Sig : Type} [DecidableEq A] [DecidableEq H]

lemma consistent_congr {c : Ctx A H Sig} {s t : State A H}
    (ha : s.accounts = t.accounts) (he : s.evmAddresses = t.evmAddresses)
    (h : Consistent c t) : Consistent c s := by
  unfold Consistent at *
  rw [ha, he]
  exact h

lemma consistent_hook {c : Ctx A H Sig} {s : State A H} (X : A)
    (h : Consistent c s) : Consistent c (on_killed_account c s X) := by
  obtain ⟨hiff, hz⟩ := h
  constructor
  · intro h0 a
    show mapRemove s.accounts ((s.evmAddresses X).getD c.zeroH) h0 = some a ↔
      mapRemove s.evmAddresses X a = some h0
    unfold mapRemove
    by_cases hX : a = X
    · subst hX
      simp only [if_pos rfl]
      constructor
      · intro hcontra
        by_cases ht : h0 = (s.evmAddresses a).getD c.zeroH
        · rw [if_pos ht] at hcontra
          exact absurd hcontra (by simp)
        · rw [if_neg ht] at hcontra
          have := (hiff h0 a).mp hcontra
          cases hE : s.evmAddresses a with
          | none => rw [hE] at this; exact absurd this (by simp)
          | some h1 =>
            rw [hE] at this
            simp only [Option.some.injEq] at this
            rw [hE] at ht
            exact absurd this.symm ht
      · intro hcontra
        exact absurd hcontra (by simp)
    · rw [if_neg hX]
      by_cases ht : h0 = (s.evmAddresses X).getD c.zeroH
      · rw [if_pos ht]
        constructor
        · intro hcontra; exact absurd hcontra (by simp)
        · intro hE
          have := (hiff h0 a).mpr hE
          cases hEX : s.evmAddresses X with
          | none =>
            rw [hEX] at ht
            simp only [Option.getD_none] at ht
            rw [ht] at this
            rw [hz] at this
            exact absurd this (by simp)
          | some h1 =>
            rw [hEX] at ht
            simp only [Option.getD_some] at ht
            have hX1 : s.accounts h1 = some X := (hiff h1 X).mpr hEX
            rw [ht] at this
            rw [hX1] at this
            simp only [Option.some.injEq] at this
            exact absurd this.symm hX
      · rw [if_neg ht]
        exact hiff h0 a
  · show mapRemove s.accounts ((s.evmAddresses X).getD c.zeroH) c.zeroH = none
    unfold mapRemove
    split
    · rfl
    · exact hz

lemma consistent_update {c : Ctx A H Sig} {s : State A H} {who : A} {eth : H} {n : Nat}
    (h : Consistent c s) (hnone : s.accounts eth = none) (hzne : eth ≠ c.zeroH) :
    Consistent c (claimFinish c s who eth n) := by
  obtain ⟨hiff, hz⟩ := h
  constructor
  · intro h0 a
    rw [claimFinish_accounts, claimFinish_evm]
    cases hE : s.evmAddresses who with
    | none =>
      simp only [hE, mapInsert]
      by_cases hw : a = who
      · subst hw
        rw [if_pos rfl]
        by_cases hh : h0 = eth
        · subst hh
          rw [if_pos rfl]
          simp
        · rw [if_neg hh]
          constructor
          · intro hcontra
            have := (hiff h0 a).mp hcontra
            rw [hE] at this
            exact absurd this (by simp)
          · intro hcontra
            simp only [Option.some.injEq] at hcontra
            exact absurd hcontra.symm hh
      · rw [if_neg hw]
        by_cases hh : h0 = eth
        · subst hh
          rw [if_pos rfl]
          constructor
          · intro hcontra
            simp only [Option.some.injEq] at hcontra
            exact absurd hcontra.symm hw
          · intro hEa
            have := (hiff h0 a).mpr hEa
            rw [hnone] at this
            exact absurd this (by simp)
        · rw [if_neg hh]
          exact hiff h0 a
    | some h1 =>
      simp only [hE, mapInsert, mapRemove]
      by_cases hw : a = who
      · subst hw
        rw [if_pos rfl]
        by_cases hh : h0 = eth
        · subst hh
          rw [if_pos rfl]
          simp
        · rw [if_neg hh]
          constructor
          · intro hcontra
            by_cases hh1 : h0 = h1
            · rw [if_pos hh1] at hcontra
              exact absurd hcontra (by simp)
            · rw [if_neg hh1] at hcontra
              have := (hiff h0 a).mp hcontra
              rw [hE] at this
              simp only [Option.some.injEq] at this
              exact absurd this.symm hh1
          · intro hcontra
            simp only [Option.some.injEq] at hcontra
            exact absurd hcontra.symm hh
      · rw [if_neg hw]
        by_cases hh : h0 = eth
        · subst hh
          rw [if_pos rfl]
          constructor
          · intro hcontra
            simp only [Option.some.injEq] at hcontra
            exact absurd hcontra.symm hw
          · intro hEa
            have := (hiff h0 a).mpr hEa
            rw [hnone] at this
            exact absurd this (by simp)
        · rw [if_neg hh]
          by_cases hh1 : h0 = h1
          · subst hh1
            rw [if_pos rfl]
            constructor
            · intro hcontra
              exact absurd hcontra (by simp)
            · intro hEa
              have := (hiff h0 a).mpr hEa
              have hwho : s.accounts h0 = some who := (hiff h0 who).mpr hE
              rw [hwho] at this
              simp only [Option.some.injEq] at this
              exact absurd this.symm hw
          · rw [if_neg hh1]
            exact hiff h0 a
  · rw [claimFinish_accounts]
    cases hE : s.evmAddresses who with
    | none =>
      simp only [hE, mapInsert]
      rw [if_neg (fun hcc => hzne hcc.symm)]
      exact hz
    | some h1 =>
      simp only [hE, mapInsert, mapRemove]
      rw [if_neg (fun hcc => hzne hcc.symm)]
      split
      · rfl
      · exact hz

lemma mapRemove_none {K V : Type} [DecidableEq K] {m : K → Option V} {k x : K}
    (h : m x = none) : mapRemove m k x = none := by
  unfold mapRemove
  split
  · rfl
  · exact h

end ConsistencyLemmas

section ReachableLemmas

variable {A H Sig : Type} [DecidableEq A] [DecidableEq H]

lemma reachable_consistent {c : Ctx A H Sig} {s : State A H}
    (h : Reachable c (fun h0 => h0 ≠ c.zeroH) s) : Consistent c s := by
  induction h with
  | init s h1 h2 =>
    exact ⟨fun h0 a => by rw [h1 h0, h2 a]; simp, h1 _⟩
  | kill s a hr ih => exact consistent_hook a ih
  | claim s who eth sig hr hP h2 ih =>
    cases hinner : claim_account_inner c s who eth sig with
    | error e =>
      unfold claim_account at h2
      rw [hinner] at h2
      simp at h2
    | ok s' =>
      have h1 : (claim_account c s who eth sig).1 = s' := by
        unfold claim_account
        rw [hinner]
      rw [h1]
      obtain ⟨hnone, t, hcases, ha, he⟩ := inner_ok_decomp hinner
      have hct : Consistent c t ∧ t.accounts eth = none := by
        rcases hcases with ⟨hta, hte⟩ | ⟨hta, hte⟩
        · exact ⟨consistent_congr hta hte ih, by rw [hta]; exact hnone⟩
        · refine ⟨consistent_congr hta hte (consistent_hook (c.pad eth) ih), ?_⟩
          rw [hta]
          exact mapRemove_none hnone
      have hcu : Consistent c (claimFinish c t who eth 0) :=
        consistent_update hct.1 hct.2 hP
      refine consistent_congr ?_ ?_ hcu
      · rw [ha, claimFinish_accounts]
      · rw [he, claimFinish_evm]

end ReachableLemmas

section DigitLemmas

lemma revDigits_eq_digits (l : Nat) :
    revDigits l = (Nat.digits 10 l).map (fun d => 48 + d) := by
  induction l using Nat.strong_induction_on with
  | _ l ih =>
    by_cases h : l = 0
    · subst h
      simp [revDigits]
    · rw [revDigits, dif_neg h, Nat.digits_def' (by norm_num : 1 < 10) (Nat.pos_of_ne_zero h)]
      simp only [List.map_cons]
      congr 1
      exact ih (l / 10) (Nat.div_lt_self (Nat.pos_of_ne_zero h) (by norm_num))

lemma revDigits_getLast : ∀ l : Nat, l ≠ 0 →
    ∃ d, (revDigits l).getLast? = some d ∧ 49 ≤ d ∧ d ≤ 57 := by
  intro l
  induction l using Nat.strong_induction_on with
  | _ l ih =>
    intro h
    rw [revDigits, dif_neg h]
    by_cases h10 : l / 10 = 0
    · have hlt : l < 10 := (Nat.div_eq_zero_iff (by norm_num : 0 < 10)).mp h10
      refine ⟨48 + l % 10, ?_, ?_, ?_⟩
      · rw [h10]
        simp [revDigits]
      · have hm : l % 10 = l := Nat.mod_eq_of_lt hlt
        omega
      · have := Nat.mod_lt l (y := 10) (by norm_num)
        omega
    · obtain ⟨d, hd, hd1, hd2⟩ :=
        ih (l / 10) (Nat.div_lt_self (Nat.pos_of_ne_zero h) (by norm_num)) h10
      refine ⟨d, ?_, hd1, hd2⟩
      cases htl : revDigits (l / 10) with
      | nil =>
        rw [htl] at hd
        simp at hd
      | cons b t =>
        rw [htl] at hd
        rw [List.getLast?_cons_cons]
        exact hd

lemma revDigits_reverse_head (l : Nat) (h : l ≠ 0) :
    (revDigits l).reverse.head? ≠ some 48 := by
  obtain ⟨d, hd, h1, -⟩ := revDigits_getLast l h
  rw [List.head?_reverse, hd]
  intro hc
  simp only [Option.some.injEq] at hc
  omega

lemma rd11 : revDigits 11 = [49, 49] := by simp [revDigits]

lemma rd12 : revDigits 12 = [50, 49] := by simp [revDigits]

lemma rd74 : revDigits 74 = [52, 55] := by simp [revDigits]

lemma hex_zero32 : to_ascii_hex (List.replicate 32 0) = List.replicate 64 48 := by decide

lemma msg_hex_zero_byte : ethereum_signable_message (to_ascii_hex [0]) [] =
    ethHeaderBytes ++ [49, 50] ++ acalaTagBytes ++ [48, 48] ++ [] := by
  show ethHeaderBytes ++
      (revDigits (acalaTagBytes.length + (to_ascii_hex [0]).length + List.length [])).reverse
      ++ acalaTagBytes ++ to_ascii_hex [0] ++ [] = _
  rw [show acalaTagBytes.length + (to_ascii_hex [0]).length + List.length ([] : List Nat) = 12
      from by decide, rd12]
  decide

lemma msg_raw_zero_byte : ethereum_signable_message [0] [] =
    ethHeaderBytes ++ [49, 49] ++ acalaTagBytes ++ [0] ++ [] := by
  show ethHeaderBytes ++
      (revDigits (acalaTagBytes.length + ([0] : List Nat).length + List.length [])).reverse
      ++ acalaTagBytes ++ [0] ++ [] = _
  rw [show acalaTagBytes.length + ([0] : List Nat).length + List.length ([] : List Nat) = 11
      from by decide, rd11]
  decide

end DigitLemmas

/-- C1: if `claim_account` fails with any error, then after the call the
forward and reverse address mappings, the free and reserved balances, and
the sequence counters (in particular those of the caller and of the shadow
account) all equal their pre-call values: `with_transaction_result` rolls
back every change made before the failure. -/
theorem claim_account_error_rollback {A H Sig : Type} [DecidableEq A] [DecidableEq H]
    (c : Ctx A H Sig) (s : State A H) (who : A) (eth : H) (sig : Sig) (e : Err)
    (h : (claim_account c s who eth sig).2 = some e) :
    (claim_account c s who eth sig).1.accounts = s.accounts ∧
    (claim_account c s who eth sig).1.evmAddresses = s.evmAddresses ∧
    (claim_account c s who eth sig).1.free = s.free ∧
    (claim_account c s who eth sig).1.reserved = s.reserved ∧
    (claim_account c s who eth sig).1.nonce = s.nonce := by
  cases hinner : claim_account_inner c s who eth sig with
  | ok t =>
    unfold claim_account at h
    rw [hinner] at h
    simp at h
  | error e0 =>
    unfold claim_account
    rw [hinner]
    exact ⟨rfl, rfl, rfl, rfl, rfl⟩

/-- Witness for C1: a concrete failing claim (signature recovery fails)
leaves the state untouched. -/
theorem claim_account_error_rollback_witness :
    (claim_account badSigCtx baseState 1 2 0).2 = some Err.BadSignature ∧
    ((claim_account badSigCtx baseState 1 2 0).1.accounts = baseState.accounts ∧
     (claim_account badSigCtx baseState 1 2 0).1.evmAddresses = baseState.evmAddresses ∧
     (claim_account badSigCtx baseState 1 2 0).1.free = baseState.free ∧
     (claim_account badSigCtx baseState 1 2 0).1.reserved = baseState.reserved ∧
     (claim_account badSigCtx baseState 1 2 0).1.nonce = baseState.nonce) :=
  ⟨by decide, claim_account_error_rollback badSigCtx baseState 1 2 0 Err.BadSignature (by decide)⟩

/-- C4: `ethereum_signable_message` is the header followed by the decimal
ASCII digits of `10 + len(payload) + len(extra)` (most-significant first,
no leading zero — the leading character is never `'0'` — and no sign
character), the domain tag `"acala evm:"`, the payload and the extra bytes;
and at the hex-ascii encoding of the 32-byte all-zero account with empty
extra it is the literal `"\x19Ethereum Signed Message:\n74acala evm:"`
followed by 64 ASCII `'0'` characters. -/
theorem ethereum_signable_message_spec :
    (∀ what extra : List Nat,
      ethereum_signable_message what extra =
        ethHeaderBytes ++
          ((Nat.digits 10 (10 + what.length + extra.length)).map (fun d => 48 + d)).reverse
          ++ acalaTagBytes ++ what ++ extra ∧
      ((Nat.digits 10 (10 + what.length + extra.length)).map
        (fun d => 48 + d)).reverse.head? ≠ some 48) ∧
    ethereum_signable_message (to_ascii_hex (List.replicate 32 0)) [] =
      ethHeaderBytes ++ [55, 52] ++ acalaTagBytes ++ List.replicate 64 48 := by
  constructor
  · intro what extra
    constructor
    · unfold ethereum_signable_message
      rw [revDigits_eq_digits]
      rfl
    · rw [← revDigits_eq_digits]
      exact revDigits_reverse_head _ (by omega)
  · show ethHeaderBytes ++
        (revDigits (acalaTagBytes.length + (to_ascii_hex (List.replicate 32 0)).length +
          List.length [])).reverse ++ acalaTagBytes ++ to_ascii_hex (List.replicate 32 0) ++ []
        = _
    rw [show acalaTagBytes.length + (to_ascii_hex (List.replicate 32 0)).length +
        List.length ([] : List Nat) = 74 from by decide, rd74, hex_zero32]
    decide

/-- C8: `into_account_id` returns the (32-byte-encoded) mapped account when
the address has a forward mapping, and otherwise the synthesized identity
`b"evm:" ++ address ++ [0; 8]`; it is a pure function of the mapping state
and the address, so two calls in a fixed state return identical results. -/
theorem into_account_id_spec {α : Type} (accounts : List Nat → Option α)
    (encode : α → List Nat) (address : List Nat)
    (haddr : address.length = 20) (henc : ∀ a, (encode a).length = 32) :
    (∀ acc, accounts address = some acc →
      into_account_id accounts encode address = some (encode acc)) ∧
    (accounts address = none →
      into_account_id accounts encode address =
        some ([101, 118, 109, 58] ++ address ++ List.replicate 8 0)) ∧
    into_account_id accounts encode address = into_account_id accounts encode address := by
  refine ⟨?_, ?_, rfl⟩
  · intro acc hacc
    unfold into_account_id
    simp only [hacc]
    rw [if_pos (henc acc)]
  · intro hnone
    unfold into_account_id
    simp only [hnone]
    rw [if_pos haddr]

/-- Witness for C8 at concrete inputs: a mapped and an unmapped address. -/
theorem into_account_id_spec_witness :
    into_account_id bytesAccounts bytesEncode (List.replicate 20 1) = some (bytesEncode 3) ∧
    into_account_id bytesAccounts bytesEncode (List.replicate 20 2) =
      some ([101, 118, 109, 58] ++ List.replicate 20 2 ++ List.replicate 8 0) :=
  ⟨(into_account_id_spec bytesAccounts bytesEncode (List.replicate 20 1) (by decide)
      (fun a => by simp [bytesEncode])).1 3 (by decide),
   (into_account_id_spec bytesAccounts bytesEncode (List.replicate 20 2) (by decide)
      (fun a => by simp [bytesEncode])).2.1 (by decide)⟩

/-- C10: when the stored account id's encoding is exactly 32 bytes, the
copy into the 32-byte buffer always succeeds (the panic branch of
`copy_from_slice` is unreachable) and `into_account_id` returns exactly that
32-byte value. -/
theorem into_account_id_copy {α : Type} (accounts : List Nat → Option α)
    (encode : α → List Nat) (address : List Nat) (acc : α)
    (henc : (encode acc).length = 32) (hacc : accounts address = some acc) :
    into_account_id accounts encode address = some (encode acc) := by
  unfold into_account_id
  simp only [hacc]
  rw [if_pos henc]

/-- Witness for C10 at a concrete mapped address. -/
theorem into_account_id_copy_witness :
    into_account_id bytesAccounts bytesEncode (List.replicate 20 1) =
      some (List.replicate 32 3) :=
  into_account_id_copy bytesAccounts bytesEncode (List.replicate 20 1) 3
    (by simp [bytesEncode]) (by decide)

/-- Counterexample for C9: in a state where the zero address has a forward
entry owned by account 5, killing account 7 — which has no reverse entry —
removes the forward entry at the zero address, because the storage getter
returns the default (zero) address for the missing reverse entry. -/
theorem on_killed_account_zero_cex :
    zeroSt.evmAddresses 7 = none ∧
    zeroSt.accounts cxCtx.zeroH = some 5 ∧
    (on_killed_account cxCtx zeroSt 7).accounts cxCtx.zeroH = none := by
  exact ⟨by decide, by decide, by decide⟩

/-- C9 (amended): the account-killed hook removes the killed account's
reverse entry and the forward entry at the address its reverse entry
designates — which is the default (zero) address when it has no reverse
entry — and leaves every other forward entry and every other account's
reverse entry unchanged. -/
theorem on_killed_account_amended {A H Sig : Type} [DecidableEq A] [DecidableEq H]
    (c : Ctx A H Sig) (s : State A H) (X : A) :
    (on_killed_account c s X).accounts ((s.evmAddresses X).getD c.zeroH) = none ∧
    (∀ h0, h0 ≠ (s.evmAddresses X).getD c.zeroH →
      (on_killed_account c s X).accounts h0 = s.accounts h0) ∧
    (on_killed_account c s X).evmAddresses X = none ∧
    (∀ a, a ≠ X → (on_killed_account c s X).evmAddresses a = s.evmAddresses a) := by
  refine ⟨?_, ?_, ?_, ?_⟩
  · show mapRemove _ _ _ = none
    unfold mapRemove
    rw [if_pos rfl]
  · intro h0 hne
    show mapRemove _ _ _ = _
    unfold mapRemove
    rw [if_neg hne]
  · show mapRemove _ _ _ = none
    unfold mapRemove
    rw [if_pos rfl]
  · intro a hne
    show mapRemove _ _ _ = _
    unfold mapRemove
    rw [if_neg hne]

/-- Witness for the amended C9 at concrete inputs. -/
theorem on_killed_account_amended_witness :
    (on_killed_account cxCtx zeroSt 7).accounts 3 = zeroSt.accounts 3 ∧
    (on_killed_account cxCtx zeroSt 7).evmAddresses 7 = none :=
  ⟨(on_killed_account_amended cxCtx zeroSt 7).2.1 3 (by decide),
   (on_killed_account_amended cxCtx zeroSt 7).2.2.1⟩

lemma mergeStep_error_kind {A H Sig : Type} [DecidableEq A] [DecidableEq H]
    {c : Ctx A H Sig} {s : State A H} {acct who : A} {e : Err}
    (hdeath : s.allowDeath acct = true) (hres : c.deposit ≥ s.reserved acct)
    (h : mergeStep c s acct who = .error e) : e = .TransferFailed := by
  simp only [mergeStep] at h
  rw [if_pos hdeath, if_pos hres] at h
  split at h
  · next e0 heq =>
    simp only [Except.error.injEq] at h
    subst h
    by_cases hfb : 0 < (if 0 < s.reserved acct then unreserveOp s acct (s.reserved acct) else s).free acct
    · rw [if_pos hfb] at heq
      exact transferOp_error_eq heq
    · rw [if_neg hfb] at heq
      simp at heq
  · simp at h

/-- C6: for a claim that reaches the merge step (address unmapped, signature
valid and matching, shadow account explicit and allowed to die), the call
fails with `StillHasActiveReserved` if and only if the shadow account's
reserved balance strictly exceeds the `NewAccountDeposit` threshold; equality
does not trigger this failure. -/
theorem still_has_active_reserved_iff {A H Sig : Type} [DecidableEq A] [DecidableEq H]
    (c : Ctx A H Sig) (s : State A H) (who : A) (eth : H) (sig : Sig)
    (hnone : s.accounts eth = none)
    (hrec : c.recover sig (to_ascii_hex (c.encodeAcc who)) = some eth)
    (hexp : s.isExplicit (c.pad eth) = true)
    (hdeath : s.allowDeath (c.pad eth) = true) :
    ((claim_account c s who eth sig).2 = some Err.StillHasActiveReserved ↔
      c.deposit < s.reserved (c.pad eth)) := by
  unfold claim_account claim_account_inner
  simp only [hnone, Option.isSome_none, Bool.false_eq_true, if_false, hrec,
    if_pos rfl, hexp, if_true]
  by_cases hres : c.deposit ≥ s.reserved (c.pad eth)
  · constructor
    · intro habs
      exfalso
      cases hm : mergeStep c s (c.pad eth) who with
      | ok p =>
        obtain ⟨s3, n⟩ := p
        rw [hm] at habs
        simp at habs
      | error e =>
        rw [hm] at habs
        simp only [Option.some.injEq] at habs
        have := mergeStep_error_kind hdeath hres hm
        rw [this] at habs
        exact Err.noConfusion habs
    · intro hlt
      omega
  · have hm : mergeStep c s (c.pad eth) who = .error .StillHasActiveReserved := by
      unfold mergeStep
      rw [if_pos hdeath, if_neg hres]
    rw [hm]
    simp only [Option.some.injEq]
    constructor
    · intro _
      omega
    · intro _
      trivial

/-- Witness for C6: with reserved balance 7 above the threshold 5 the claim
fails with exactly `StillHasActiveReserved`. -/
theorem still_has_active_reserved_iff_witness :
    ((claim_account mgCtx rsSt 1 2 0).2 = some Err.StillHasActiveReserved ↔
      mgCtx.deposit < rsSt.reserved (mgCtx.pad 2)) :=
  still_has_active_reserved_iff mgCtx rsSt 1 2 0 (by decide) (by decide) (by decide) (by decide)

/-- C7: a caller holding a reverse entry for address `addrA` who successfully
claims a different address `eth` ends with the forward entry at `addrA`
removed, the forward entry at `eth` pointing to the caller, and the reverse
entry of the caller pointing to `eth` — never two simultaneous forward
entries for one caller. -/
theorem reclaim_replaces {A H Sig : Type} [DecidableEq A] [DecidableEq H]
    (c : Ctx A H Sig) (s : State A H) (who : A) (addrA eth : H) (sig : Sig)
    (hmapped : s.evmAddresses who = some addrA)
    (hne : addrA ≠ eth)
    (hok : (claim_account c s who eth sig).2 = none) :
    (claim_account c s who eth sig).1.accounts addrA = none ∧
    (claim_account c s who eth sig).1.accounts eth = some who ∧
    (claim_account c s who eth sig).1.evmAddresses who = some eth := by
  cases hinner : claim_account_inner c s who eth sig with
  | error e =>
    unfold claim_account at hok
    rw [hinner] at hok
    simp at hok
  | ok s' =>
    have h1 : (claim_account c s who eth sig).1 = s' := by
      unfold claim_account
      rw [hinner]
    rw [h1]
    obtain ⟨hnone, t, hcases, ha, he⟩ := inner_ok_decomp hinner
    refine ⟨?_, ?_, ?_⟩
    · rw [ha]
      show mapInsert _ eth who addrA = none
      unfold mapInsert
      rw [if_neg hne]
      rcases hcases with ⟨hta, hte⟩ | ⟨hta, hte⟩
      · simp only [hte, hmapped]
        unfold mapRemove
        rw [if_pos rfl]
      · by_cases hw : who = c.pad eth
        · have hEnone : t.evmAddresses who = none := by
            rw [hte]
            unfold mapRemove
            rw [if_pos hw]
          simp only [hEnone, hta, ← hw, hmapped]
          show mapRemove s.accounts ((some addrA).getD c.zeroH) addrA = none
          unfold mapRemove
          rw [Option.getD_some, if_pos rfl]
        · have hEsome : t.evmAddresses who = some addrA := by
            rw [hte]
            unfold mapRemove
            rw [if_neg hw]
            exact hmapped
          simp only [hEsome]
          unfold mapRemove
          rw [if_pos rfl]
    · rw [ha]
      show mapInsert _ eth who eth = some who
      unfold mapInsert
      rw [if_pos rfl]
    · rw [he]
      show mapInsert t.evmAddresses who eth who = some eth
      unfold mapInsert
      rw [if_pos rfl]

/-- Witness for C7: caller 1, previously mapped to address 9, successfully
claims address 2. -/
theorem reclaim_replaces_witness :
    (claim_account mgCtx rcSt 1 2 0).1.accounts 9 = none ∧
    (claim_account mgCtx rcSt 1 2 0).1.accounts 2 = some 1 ∧
    (claim_account mgCtx rcSt 1 2 0).1.evmAddresses 1 = some 2 :=
  reclaim_replaces mgCtx rcSt 1 9 2 0 (by decide) (by decide) (by decide)

/-- Counterexample for C3: shadow account 102 (for claimed address 2) is
explicit with free balance F = 1 and reserved balance R = 1 ≤ threshold 5;
caller 1 has free balance C = 0.  The claim succeeds, but the caller's
post-call free balance is 2 = C + F + R, not C + F = 1: the unreserved
amount is transferred along with the free balance. -/
theorem merge_free_balance_cex :
    (claim_account mgCtx mgSt 1 2 0).2 = none ∧
    mgCtx.pad 2 = 102 ∧
    mgSt.isExplicit 102 = true ∧
    mgSt.reserved 102 ≤ mgCtx.deposit ∧
    mgSt.free 102 = 1 ∧
    mgSt.free 1 = 0 ∧
    (claim_account mgCtx mgSt 1 2 0).1.free 1 ≠ mgSt.free 1 + mgSt.free 102 := by
  exact ⟨by decide, by decide, by decide, by decide, by decide, by decide, by decide⟩

/-- C3 (amended): for every successful `claim_account` call where the shadow
account is explicit (active) and distinct from the caller, the caller's
post-call free balance is its pre-call free balance plus the shadow
account's free balance plus the shadow account's reserved balance (the
reserved part is unreserved into free before the transfer of the whole free
balance), the shadow account is destroyed, and the caller's sequence counter
becomes the maximum of its own and the shadow account's pre-call counters. -/
theorem merge_correctness_amended {A H Sig : Type} [DecidableEq A] [DecidableEq H]
    (c : Ctx A H Sig) (s : State A H) (who : A) (eth : H) (sig : Sig)
    (hexp : s.isExplicit (c.pad eth) = true)
    (hne : c.pad eth ≠ who)
    (hok : (claim_account c s who eth sig).2 = none) :
    (claim_account c s who eth sig).1.free who
        = s.free who + s.free (c.pad eth) + s.reserved (c.pad eth) ∧
    (claim_account c s who eth sig).1.isExplicit (c.pad eth) = false ∧
    (claim_account c s who eth sig).1.nonce who
        = max (s.nonce who) (s.nonce (c.pad eth)) := by
  cases hinner : claim_account_inner c s who eth sig with
  | error e =>
    unfold claim_account at hok
    rw [hinner] at hok
    simp at hok
  | ok s' =>
    have h1 : (claim_account c s who eth sig).1 = s' := by
      unfold claim_account
      rw [hinner]
    rw [h1]
    unfold claim_account_inner at hinner
    cases hAcc : s.accounts eth with
    | some a =>
      rw [hAcc] at hinner
      simp at hinner
    | none =>
      rw [hAcc] at hinner
      simp only [Option.isSome_none, Bool.false_eq_true, if_false] at hinner
      cases hrec : c.recover sig (to_ascii_hex (c.encodeAcc who)) with
      | none =>
        rw [hrec] at hinner
        simp at hinner
      | some addr =>
        simp only [hrec] at hinner
        by_cases heq : eth = addr
        · rw [if_pos heq, if_pos hexp] at hinner
          cases hm : mergeStep c s (c.pad eth) who with
          | error e =>
            rw [hm] at hinner
            simp at hinner
          | ok p =>
            obtain ⟨s3, n⟩ := p
            rw [hm] at hinner
            simp only [Except.ok.injEq] at hinner
            obtain ⟨hfree, hexp3, hnon, hn⟩ := mergeStep_ok_effects hne hm
            rw [← hinner]
            refine ⟨?_, ?_, ?_⟩
            · rw [claimFinish_free]
              exact hfree
            · rw [claimFinish_isExplicit]
              exact hexp3
            · rw [claimFinish_nonce_who, hnon, hn]
        · rw [if_neg heq] at hinner
          simp at hinner

/-- Witness for the amended C3: the concrete merge of shadow account 102
(free 1, reserved 1) into caller 1 (free 0). -/
theorem merge_correctness_amended_witness :
    (claim_account mgCtx mgSt 1 2 0).1.free 1
        = mgSt.free 1 + mgSt.free (mgCtx.pad 2) + mgSt.reserved (mgCtx.pad 2) ∧
    (claim_account mgCtx mgSt 1 2 0).1.isExplicit (mgCtx.pad 2) = false ∧
    (claim_account mgCtx mgSt 1 2 0).1.nonce 1
        = max (mgSt.nonce 1) (mgSt.nonce (mgCtx.pad 2)) :=
  merge_correctness_amended mgCtx mgSt 1 2 0 (by decide) (by decide) (by decide)

/-- Counterexample for C2: from the empty mapping, account 10 successfully
claims the zero address; then the account-killed hook runs for account 11,
which has no reverse entry, and removes the forward entry at the default
(zero) address.  In the resulting reachable state the reverse map still
holds the pair (10, 0) while the forward map does not — the two maps no
longer hold the same set of pairs. -/
theorem bijectivity_cex :
    Reachable cxCtx (fun _ => True) cxBad ∧
    cxBad.evmAddresses 10 = some 0 ∧
    cxBad.accounts 0 = none := by
  refine ⟨?_, by decide, by decide⟩
  have h0 : Reachable cxCtx (fun _ => True) cxInit :=
    Reachable.init cxInit (fun _ => rfl) (fun _ => rfl)
  have h1 : Reachable cxCtx (fun _ => True) cxMid :=
    Reachable.claim cxInit 10 0 0 h0 trivial (by decide)
  exact Reachable.kill cxMid 11 h1

/-- C2 (amended): in every state reachable from the empty mapping by
successful `claim_account` calls that claim a non-default (non-zero) EVM
address and by account-killed hook invocations, the forward and reverse
maps hold exactly the same pairs, no two pairs share a foreign address, and
no two pairs share a native account id. -/
theorem bijectivity_amended {A H Sig : Type} [DecidableEq A] [DecidableEq H]
    (c : Ctx A H Sig) (s : State A H)
    (h : Reachable c (fun h0 => h0 ≠ c.zeroH) s) :
    (∀ h0 a, s.accounts h0 = some a ↔ s.evmAddresses a = some h0) ∧
    (∀ h1 h2 a, s.accounts h1 = some a → s.accounts h2 = some a → h1 = h2) ∧
    (∀ a1 a2 h0, s.evmAddresses a1 = some h0 → s.evmAddresses a2 = some h0 → a1 = a2) := by
  obtain ⟨hiff, -⟩ := reachable_consistent h
  refine ⟨hiff, ?_, ?_⟩
  · intro h1 h2 a ha1 ha2
    have e1 := (hiff h1 a).mp ha1
    have e2 := (hiff h2 a).mp ha2
    rw [e1] at e2
    simp only [Option.some.injEq] at e2
    exact e2
  · intro a1 a2 h0 he1 he2
    have e1 := (hiff h0 a1).mpr he1
    have e2 := (hiff h0 a2).mpr he2
    rw [e1] at e2
    simp only [Option.some.injEq] at e2
    exact e2

/-- Witness for the amended C2 at the empty initial state. -/
theorem bijectivity_amended_witness :
    (∀ h0 a, baseState.accounts h0 = some a ↔ baseState.evmAddresses a = some h0) ∧
    (∀ h1 h2 a, baseState.accounts h1 = some a → baseState.accounts h2 = some a → h1 = h2) ∧
    (∀ a1 a2 h0, baseState.evmAddresses a1 = some h0 → baseState.evmAddresses a2 = some h0 →
      a1 = a2) :=
  bijectivity_amended cxCtx baseState
    (Reachable.init baseState (fun _ => rfl) (fun _ => rfl))

set_option maxRecDepth 100000 in
/-- Counterexample for C5: the toy crypto model satisfies the documented
recovery contract (first conjunct), yet recovering with the raw payload a
signature produced by `eth_sign` — which hex-ascii-encodes its payload
before building the message — does not return the signer's address: the two
sides hash different messages. -/
theorem recover_round_trip_cex :
    (∀ (msg : List Nat) (k : Nat),
      toyCrypto.ecdsaRecover ((toyCrypto.signRS msg k).1 ++ [(toyCrypto.signRS msg k).2]) msg
        = some ((toyCrypto.pubkeySer k).drop 1)) ∧
    eth_recover toyCrypto (eth_sign toyCrypto 0 [0] []) [0] [] ≠
      some (eth_address toyCrypto 0) := by
  constructor
  · intro msg k
    simp [toyCrypto]
  · simp only [eth_recover, eth_sign, eth_address, msg_hex_zero_byte, msg_raw_zero_byte]
    decide

/-- C5 (amended): for every crypto model satisfying the documented recovery
contract, every secret key and all payload and extra bytes, recovering the
`eth_sign` signature over the hex-ascii encoding of the payload — the form
in which `eth_sign` embeds it, and the form `claim_account` passes to
`eth_recover` — yields exactly the signer's address `eth_address`. -/
theorem recover_round_trip_amended {K : Type} (C : CryptoModel K)
    (hC : ∀ (msg : List Nat) (k : K),
      C.ecdsaRecover ((C.signRS msg k).1 ++ [(C.signRS msg k).2]) msg
        = some ((C.pubkeySer k).drop 1))
    (k : K) (what extra : List Nat) :
    eth_recover C (eth_sign C k what extra) (to_ascii_hex what) extra
      = some (eth_address C k) := by
  simp only [eth_recover, eth_sign, eth_address, hC, Option.map_some']

set_option maxRecDepth 100000 in
/-- Witness for the amended C5 on the toy crypto model at concrete inputs. -/
theorem recover_round_trip_amended_witness :
    eth_recover toyCrypto (eth_sign toyCrypto 5 [1, 2] [3]) (to_ascii_hex [1, 2]) [3]
      = some (eth_address toyCrypto 5) :=
  recover_round_trip_amended toyCrypto (fun msg k => by simp [toyCrypto]) 5 [1, 2] [3]
